import Mathlib

/-!
Verification of the idasql validation infrastructure (test client and test
harness) against its natural-language specification.  The definitions below
are a shallow embedding of `src/test/test_client.py` and
`src/test/run_tests.py`: sockets are modelled as schedules of delivery
events, subprocess behaviour as explicit outcome values, and exceptions as
`Except` values.
-/

/-- One delivery event of a TCP stream as observed through `socket.recv`:
either a chunk of bytes handed to the caller (`Except.ok`) or an exception
raised by the call (`Except.error msg`, e.g. a timeout).  Bytes are `Nat`. -/
abbrev RecvEv := Except String (List Nat)

/-- The incoming side of a socket: the schedule of deliveries the stream
will produce.  An exhausted schedule behaves as a closed stream (`recv`
returns the empty chunk). -/
abbrev Sched := List RecvEv

/-- Model of `self.sock.recv(k)` (test_client.py line 91): returns at most
`k` bytes from the next delivery; bytes of a chunk beyond `k` stay queued.
An exhausted schedule yields the empty chunk, i.e. an orderly close. -/
def recv (k : Nat) : Sched → Except String (List Nat) × Sched
  | [] => (.ok [], [])
  | .error m :: rest => (.error m, rest)
  | .ok c :: rest =>
      (.ok (c.take k), if c.drop k = [] then rest else .ok (c.drop k) :: rest)

/-- The loop body of `IdasqlClient._recv_exact` (test_client.py lines
87-95): accumulate into `data` until `n` bytes are held; an empty chunk
means the peer closed the stream (`none`); an exception from `recv`
propagates (`Except.error`). -/
def recvExactGo (n : Nat) (data : List Nat) (s : Sched) :
    Except String (Option (List Nat)) × Sched :=
  if data.length < n then
    match recv (n - data.length) s with
    | (.error m, s2) => (.error m, s2)
    | (.ok [], s2) => (.ok none, s2)
    | (.ok (b :: bs), s2) => recvExactGo n (data ++ b :: bs) s2
  else (.ok (some data), s)
termination_by n - data.length
decreasing_by simp [List.length_append]; omega

/-- `IdasqlClient._recv_exact(n)`: receive exactly `n` bytes. -/
def recvExact (n : Nat) (s : Sched) : Except String (Option (List Nat)) × Sched :=
  recvExactGo n [] s

/-- `struct.unpack('<I', b)[0]` on a 4-byte string: little-endian u32. -/
def unpackLE32 (bs : List Nat) : Nat :=
  match bs with
  | [b0, b1, b2, b3] => b0 + b1 * 256 + b2 * 65536 + b3 * 16777216
  | _ => 0

/-- The response-size ceiling of `IdasqlClient.query`
(test_client.py line 74): `100 * 1024 * 1024` bytes. -/
def RESP_LIMIT : Nat := 100 * 1024 * 1024

/-- Whether the `self.sock.sendall(...)` call in `query` completed or
raised a transport exception carrying the given text. -/
inductive SendOutcome
  | sent
  | raisedExc (msg : String)
  deriving DecidableEq

/-- Outcome of `IdasqlClient.query`.  `decodedResp p` stands for
`json.loads` applied to the fully received payload bytes `p`; the other
constructors are the error dictionaries the method itself builds. -/
inductive QueryResult
  | notConnected
  | connectionClosed
  | responseTooLarge
  | transportError (msg : String)
  | decodedResp (payload : List Nat)
  deriving DecidableEq

/-- The literal `{'success': ..., 'error': ...}` dictionary shape. -/
structure ResultDict where
  success : Bool
  error : Option String
  deriving DecidableEq

/-- The dictionary `query` itself constructs on each local error path;
`none` for `decodedResp`, whose dictionary is whatever JSON the server
sent. -/
def QueryResult.errDict : QueryResult → Option ResultDict
  | .notConnected => some ⟨false, some "Not connected"⟩
  | .connectionClosed => some ⟨false, some "Connection closed"⟩
  | .responseTooLarge => some ⟨false, some "Response too large"⟩
  | .transportError m => some ⟨false, some m⟩
  | .decodedResp _ => none

/-- The body of `IdasqlClient.query` after the `self.sock` check
(test_client.py lines 62-85): send, read the 4-byte length, apply the
size guard, read the payload, decode; exceptions raised anywhere inside
are caught and turned into a `transportError` result. -/
def queryAfterConnect (send : SendOutcome) (s : Sched) : QueryResult × Sched :=
  match send with
  | .raisedExc m => (.transportError m, s)
  | .sent =>
    match recvExact 4 s with
    | (.error m, s1) => (.transportError m, s1)
    | (.ok none, s1) => (.connectionClosed, s1)
    | (.ok (some lenB), s1) =>
      let respLen := unpackLE32 lenB
      if respLen > RESP_LIMIT then (.responseTooLarge, s1)
      else
        match recvExact respLen s1 with
        | (.error m, s2) => (.transportError m, s2)
        | (.ok none, s2) => (.connectionClosed, s2)
        | (.ok (some p), s2) => (.decodedResp p, s2)

/-- `IdasqlClient.query` including the initial `if not self.sock` check
(test_client.py lines 59-60). -/
def query (sockLive : Bool) (send : SendOutcome) (s : Sched) : QueryResult × Sched :=
  if sockLive then queryAfterConnect send s else (.notConnected, s)

/-- A delivery event of a well-behaved closed-at-end stream: a nonempty
chunk (an empty chunk is reserved for end-of-stream, and no exception). -/
def cleanEv : RecvEv → Bool
  | .ok c => !c.isEmpty
  | .error _ => false

/-- A stream schedule made only of nonempty ordinary chunks. -/
def cleanSched (s : Sched) : Bool := s.all cleanEv

/-- All bytes a schedule still holds, in order. -/
def schedBytes : Sched → List Nat
  | [] => []
  | .ok c :: rest => c ++ schedBytes rest
  | .error _ :: rest => schedBytes rest

/-- The only mutable state of `IdasqlClient` relevant to the connection
invariant: whether `self.sock` is a socket object (`true`) or `None`. -/
structure ClientState where
  sockLive : Bool
  deriving DecidableEq

/-- `IdasqlClient.__init__`: `self.sock = None`. -/
def clientInit : ClientState := ⟨false⟩

/-- `IdasqlClient.connect` (test_client.py lines 26-35): on success the
socket object is installed and `True` returned; any exception resets
`self.sock = None` and returns `False`.  The parameter `ok` abstracts
whether the underlying `socket.connect` attempt succeeds. -/
def connectStep (_c : ClientState) (ok : Bool) : ClientState × Bool := (⟨ok⟩, ok)

/-- `IdasqlClient.disconnect` (test_client.py lines 37-44): always leaves
`self.sock = None`, even if `close()` raises. -/
def disconnectStep (_c : ClientState) : ClientState := ⟨false⟩

/-- One client method call, with the nondeterministic outcome of a connect
attempt made explicit. -/
inductive ClientOp
  | connectOp (ok : Bool)
  | disconnectOp
  | queryOp
  deriving DecidableEq

/-- Effect of one method call on `self.sock`; `query` never assigns it. -/
def applyOp (c : ClientState) : ClientOp → ClientState
  | .connectOp ok => (connectStep c ok).1
  | .disconnectOp => disconnectStep c
  | .queryOp => c

/-- A fresh client driven through a call sequence. -/
def applyOps (c : ClientState) (ops : List ClientOp) : ClientState :=
  ops.foldl applyOp c

/-- Modelled from the claim's wording: walking back from the most recent
call, the socket should be live exactly if the first connect/disconnect
encountered is a successful connect. -/
def liveAfterRecent : List ClientOp → Bool
  | [] => false
  | .connectOp ok :: _ => ok
  | .disconnectOp :: _ => false
  | .queryOp :: rest => liveAfterRecent rest

/-- Spec-side definition: the most recent connect succeeded and no
disconnect has followed it. -/
def lastConnectLive (ops : List ClientOp) : Bool :=
  liveAfterRecent ops.reverse

/-- One recorded test result of the harness (name, passed flag, optional
diagnostic text), the common shape of `run_tests.py` result dicts. -/
structure CaseResult where
  name : String
  passed : Bool
  error : Option String
  deriving DecidableEq

/-- What one CLI subprocess invocation in `run_cli_local_tests` does:
it ran and produced combined output and a return code, it hit the 60 s
timeout (`subprocess.TimeoutExpired`), or it raised some other exception. -/
inductive ExecOutcome
  | ran (output : String) (rc : Int)
  | timedOut
  | raisedBefore (msg : String)
  deriving DecidableEq

/-- One local-mode test case (modes 1 and 2): its declared behaviour of the
subprocess run, and its `check` predicate over (output, returncode), which
may itself raise (`Except.error msg` models a raising predicate). -/
structure LocalCase where
  name : String
  exec : ExecOutcome
  check : String → Int → Except String Bool

/-- The per-case `try`/`except` body of `TestHarness.run_cli_local_tests`
(run_tests.py lines 242-295): both the subprocess call and the `check`
call sit inside the `try`, so a raising predicate is recorded as a failed
result carrying `str(e)`. -/
def runLocalCase (t : LocalCase) : CaseResult :=
  match t.exec with
  | .ran out rc =>
    match t.check out rc with
    | .ok b => ⟨t.name, b, none⟩
    | .error m => ⟨t.name, false, some m⟩
  | .timedOut => ⟨t.name, false, some "Timeout"⟩
  | .raisedBefore m => ⟨t.name, false, some m⟩

/-- The loop of `run_cli_local_tests`: every case appends exactly one
result and the loop always continues to the next case. -/
def runCliLocalTests : List LocalCase → List CaseResult
  | [] => []
  | t :: rest => runLocalCase t :: runCliLocalTests rest

/-- One remote-mode test case of `run_basic_tests` (test_client.py lines
105-151), with the structured response type abstracted as `ρ` and a
predicate that may raise. -/
structure RemoteCase (ρ : Type) where
  name : String
  sql : String
  passedCheck : ρ → Except String Bool

/-- One entry of the result list `run_basic_tests` builds. -/
structure BasicResult where
  name : String
  sql : String
  passed : Bool
  deriving DecidableEq

/-- Events of one harness run, used to state ordering properties. -/
inductive Ev
  | buildStep (ok : Bool)
  | localCaseRun (name : String)
  | startDriver
  | serverReady
  | remoteCaseRun (name : String)
  | stopDriver
  | driverTerminated
  | printDriverOutput (out : String)
  deriving DecidableEq

/-- The loop of `run_basic_tests` (test_client.py lines 140-151): each case
sends its query and applies its predicate.  The predicate application is
NOT inside any `try`, so `Except.error` from it propagates and the loop —
and the result list — is abandoned.  The event list records which cases
actually executed. -/
def runBasicTests {ρ : Type} (q : String → ρ) :
    List (RemoteCase ρ) → Except String (List BasicResult) × List Ev
  | [] => (.ok [], [])
  | t :: rest =>
    let r := q t.sql
    match t.passedCheck r with
    | .error m => (.error m, [.remoteCaseRun t.name])
    | .ok b =>
      let res := runBasicTests q rest
      (match res.1 with
       | .error m => .error m
       | .ok rs => .ok (⟨t.name, t.sql, b⟩ :: rs),
       .remoteCaseRun t.name :: res.2)

/-- The conversion `run_remote_tests` applies to each basic result
(run_tests.py lines 387-395). -/
def toCaseResult (r : BasicResult) : CaseResult :=
  ⟨"cli_remote_" ++ r.name, r.passed, none⟩

/-- Failed-count of a result list, as accumulated by `print_results`. -/
def countFailed (rs : List CaseResult) : Nat :=
  (rs.filter (fun r => !r.passed)).length

/-- Points of the `run` body where an injected infrastructure exception can
interrupt the test sequence (build, local loop, driver start). -/
inductive BodyPoint
  | duringBuild
  | duringLocal
  | duringStart
  deriving DecidableEq

/-- Which message, if any, is raised at point `p`. -/
def raiseMsg (r : Option (BodyPoint × String)) (p : BodyPoint) : Option String :=
  match r with
  | some (q, m) => if q = p then some m else none
  | none => none

/-- The environment one harness run executes in: outcome of the build, the
declared local cases, whether the driver executable exists (`Popen` happens
only then), whether the readiness probe succeeds, whether the remote test
client can connect, the remote query function and cases, the driver's
remaining buffered output at teardown, and an optional injected
exception. -/
structure HarnessEnv (ρ : Type) where
  raiseAt : Option (BodyPoint × String)
  buildOk : Bool
  localCases : List LocalCase
  exeFound : Bool
  probeReady : Bool
  remoteConnectOk : Bool
  remoteQuery : String → ρ
  remoteCases : List (RemoteCase ρ)
  driverOutput : String

/-- Result of the `try` body of `TestHarness.run`: the returned exit code
or the propagating exception, the events, and whether a driver process was
launched (i.e. `self.driver_process` is set). -/
structure BodyOut where
  res : Except String Int
  evs : List Ev
  launched : Bool

/-- The `try` body of `TestHarness.run` (run_tests.py lines 433-462):
build (exit 2 on failure), run local cases, start the driver (exit 3 if it
does not reach ready), run remote cases, exit 0 on zero failures else 1. -/
def runBody {ρ : Type} (e : HarnessEnv ρ) : BodyOut :=
  match raiseMsg e.raiseAt .duringBuild with
  | some m => ⟨.error m, [], false⟩
  | none =>
    if !e.buildOk then ⟨.ok 2, [.buildStep false], false⟩
    else
      match raiseMsg e.raiseAt .duringLocal with
      | some m => ⟨.error m, [.buildStep true], false⟩
      | none =>
        let localRes := runCliLocalTests e.localCases
        let evs1 := Ev.buildStep true :: e.localCases.map (fun t => Ev.localCaseRun t.name)
        match raiseMsg e.raiseAt .duringStart with
        | some m => ⟨.error m, evs1, false⟩
        | none =>
          if !e.exeFound then ⟨.ok 3, evs1, false⟩
          else if !e.probeReady then ⟨.ok 3, evs1 ++ [.startDriver], true⟩
          else
            let readyEvs := evs1 ++ [.startDriver, .serverReady]
            if !e.remoteConnectOk then
              let remoteRes := [(⟨"remote_connect", false, some "Failed to connect"⟩ : CaseResult)]
              ⟨.ok (if countFailed localRes + countFailed remoteRes = 0 then 0 else 1),
                readyEvs, true⟩
            else
              let rem := runBasicTests e.remoteQuery e.remoteCases
              match rem.1 with
              | .error m => ⟨.error m, readyEvs ++ rem.2, true⟩
              | .ok rs =>
                ⟨.ok (if countFailed localRes + countFailed (rs.map toCaseResult) = 0
                      then 0 else 1),
                  readyEvs ++ rem.2, true⟩

/-- Truthiness of `output.strip()` in Python: the buffered output holds at
least one non-whitespace character. -/
def outputNonBlank (s : String) : Bool := !(s.data.all Char.isWhitespace)

/-- `TestHarness.stop_driver` (run_tests.py lines 356-372): always called
(it is the `finally` step); if a driver process exists it is terminated
(gracefully, escalating to kill) and its remaining buffered output is
printed exactly when it is non-blank — pass or fail does not enter into
it. -/
def stopDriverRun (launched : Bool) (out : String) : List Ev :=
  Ev.stopDriver ::
    (if launched then
      Ev.driverTerminated :: (if outputNonBlank out then [Ev.printDriverOutput out] else [])
    else [])

/-- Exit status of one whole `TestHarness.run` call. -/
inductive RunOutcome
  | exitCode (c : Int)
  | raisedExc (m : String)
  deriving DecidableEq

/-- `TestHarness.run` with its `try`/`finally`: the body's exit code or
propagating exception, with `stop_driver` always executed afterwards. -/
def harnessRun {ρ : Type} (e : HarnessEnv ρ) : RunOutcome × List Ev :=
  let b := runBody e
  (match b.res with
   | .ok c => .exitCode c
   | .error m => .raisedExc m,
   b.evs ++ stopDriverRun b.launched e.driverOutput)

/-- `main` (run_tests.py lines 468-484): the harness exit code, with any
propagating exception printed and mapped to `sys.exit(1)`. -/
def mainExit {ρ : Type} (e : HarnessEnv ρ) : Int :=
  match (harnessRun e).1 with
  | .exitCode c => c
  | .raisedExc _ => 1

/-- A local test case that runs and fails its predicate honestly. -/
def localFailCase : LocalCase :=
  ⟨"cli_local_fail", .ran "error: no such table" 1, fun _ _ => .ok false⟩

/-- Build succeeds, one local case fails, driver does not reach ready. -/
def envC4 : HarnessEnv Unit :=
  ⟨none, true, [localFailCase], true, false, true, fun _ => (), [], ""⟩

/-- A clean all-pass environment. -/
def envC4W : HarnessEnv Unit :=
  ⟨none, true, [], true, true, true, fun _ => (), [], ""⟩

/-- A remote case whose predicate raises. -/
def raisingRemoteCase : RemoteCase Unit := ⟨"raises", "SELECT 1", fun _ => .error "boom"⟩

/-- A remote case after the raising one; its predicate would pass. -/
def afterRemoteCase : RemoteCase Unit := ⟨"after", "SELECT 2", fun _ => .ok true⟩

/-- A run whose remote list starts with the raising case. -/
def envC5 : HarnessEnv Unit :=
  ⟨none, true, [], true, true, true, fun _ => (), [raisingRemoteCase, afterRemoteCase], ""⟩

/-- A local case whose predicate raises. -/
def raisingLocalCase : LocalCase :=
  ⟨"raises_local", .ran "some output" 0, fun _ _ => .error "KeyError"⟩

/-- A local case after the raising one; its predicate passes. -/
def okLocalCase : LocalCase :=
  ⟨"ok_case", .ran "1 row(s)" 0, fun _ _ => .ok true⟩

/-- Is this event the execution of a local-mode case? -/
def isLocalEv : Ev → Bool
  | .localCaseRun _ => true
  | _ => false

/-- Is this event the execution of a remote-mode case? -/
def isRemoteEv : Ev → Bool
  | .remoteCaseRun _ => true
  | _ => false

/-- The events of running the declared local cases, in order. -/
def localEvs {ρ : Type} (e : HarnessEnv ρ) : List Ev :=
  e.localCases.map (fun t => Ev.localCaseRun t.name)

/-- An environment where every phase runs: used to witness the ordering. -/
def envOrderW : HarnessEnv Unit :=
  ⟨none, true, [⟨"loc", .ran "ok" 0, fun _ _ => .ok true⟩], true, true, true,
    fun _ => (), [⟨"rem", "SELECT 1", fun _ => .ok true⟩], ""⟩

/-- Environment where the driver launches but never reaches ready: run
exits 3 with a live process to clean up. -/
def envC7W : HarnessEnv Unit :=
  ⟨none, true, [], true, false, true, fun _ => (), [], ""⟩

/-- A fully successful run whose driver left buffered output. -/
def envC8 : HarnessEnv Unit :=
  ⟨none, true, [], true, true, true, fun _ => (), [], "server log"⟩

/-- What one iteration of the readiness-probe loop in
`TestHarness.start_driver` (run_tests.py lines 337-351) observes: whether
`poll()` reports the process already exited, and whether the 1-second
probe connect succeeds. -/
structure ProbeObs where
  exited : Bool
  connectOk : Bool
  deriving DecidableEq

/-- Outcome of the probe loop.  `failedDead out` carries the process's
captured combined output (`stderr` is redirected into `stdout` at launch),
read and surfaced in the iteration that observes the exit. -/
inductive ProbeOutcome
  | ready
  | failedDead (out : String)
  | failedTimeout
  deriving DecidableEq

/-- The probe loop: each list element is what one iteration inside the
30-second window observes; exhausting the list is the deadline.  Returns
the outcome and the number of iterations actually executed. -/
def startProbe (procOut : String) : List ProbeObs → ProbeOutcome × Nat
  | [] => (.failedTimeout, 0)
  | o :: rest =>
    if o.exited then (.failedDead procOut, 1)
    else if o.connectOk then (.ready, 1)
    else
      let r := startProbe procOut rest
      (r.1, r.2 + 1)

/-- A run that fails readiness after launching, with non-blank output. -/
def envC8W : HarnessEnv Unit :=
  ⟨none, true, [], true, false, true, fun _ => (), [], "server boot noise"⟩

/-- A single `recv` call on a clean stream delivers a chunk off the front of
the remaining bytes: no exception, an empty chunk only at end-of-stream, and
never more than the `k` bytes asked for. -/
lemma recv_clean_spec (k : Nat) (s : Sched) (hs : cleanSched s = true) (hk : 0 < k) :
    ∃ ch s2, recv k s = (.ok ch, s2) ∧ schedBytes s = ch ++ schedBytes s2 ∧
      cleanSched s2 = true ∧ (ch = [] → s = [] ∧ s2 = []) ∧ ch.length ≤ k := by
  match s with
  | [] =>
    exact ⟨[], [], rfl, rfl, rfl, fun _ => ⟨rfl, rfl⟩, by simp⟩
  | .error m :: rest =>
    simp [cleanSched, cleanEv] at hs
  | .ok c :: rest =>
    rw [cleanSched, List.all_cons, Bool.and_eq_true] at hs
    have hc : c ≠ [] := by
      intro h; subst h; simp [cleanEv] at hs
    have hrest : cleanSched rest = true := hs.2
    have htake : c.take k ≠ [] := by
      intro h
      rcases List.take_eq_nil_iff.mp h with h0 | h0
      · omega
      · exact hc h0
    by_cases hd : c.drop k = []
    · have hck : c.length ≤ k := List.drop_eq_nil_iff.mp hd
      refine ⟨c.take k, rest, by simp [recv, hd], ?_, hrest,
        fun h => absurd h htake, by simp⟩
      simp [schedBytes, List.take_of_length_le hck]
    · refine ⟨c.take k, .ok (c.drop k) :: rest, by simp [recv, hd], ?_, ?_,
        fun h => absurd h htake, by simp⟩
      · simp [schedBytes, ← List.append_assoc, List.take_append_drop]
      · rw [cleanSched, List.all_cons, Bool.and_eq_true]
        exact ⟨by simp [cleanEv, hd], hrest⟩

/-- `_recv_exact` success case: starting with `data` accumulated, a
successful run on a clean stream returns exactly `n` bytes, and consumes
from the stream exactly the bytes it returns beyond `data`. -/
lemma recvExactGo_some (n : Nat) (data : List Nat) (s : Sched) :
    cleanSched s = true → ∀ d s', recvExactGo n data s = (.ok (some d), s') →
      (∃ extra, d = data ++ extra ∧ schedBytes s = extra ++ schedBytes s' ∧
        cleanSched s' = true) ∧
      (data.length ≤ n → d.length = n) := by
  induction data, s using recvExactGo.induct n with
  | case1 data s hlt m s2 hE =>
    intro hs d s' hrun
    rw [recvExactGo, if_pos hlt, hE] at hrun
    simp at hrun
  | case2 data s hlt s2 hE =>
    intro hs d s' hrun
    rw [recvExactGo, if_pos hlt, hE] at hrun
    simp at hrun
  | case3 data s hlt b bs s2 hE ih =>
    intro hs d s' hrun
    rw [recvExactGo, if_pos hlt, hE] at hrun
    obtain ⟨ch, s2', hE', hbytes, hclean, _, hlen⟩ :=
      recv_clean_spec (n - data.length) s hs (by omega)
    rw [hE] at hE'
    obtain ⟨hch, hs2⟩ : b :: bs = ch ∧ s2 = s2' := by
      simpa [Prod.mk.injEq] using hE'
    subst hs2
    rw [← hch] at hbytes hlen
    obtain ⟨⟨extra, hd, hb2, hcs'⟩, hlenIH⟩ := ih hclean d s' hrun
    refine ⟨⟨b :: bs ++ extra, by simp [hd], ?_, hcs'⟩, ?_⟩
    · rw [hbytes, hb2, List.append_assoc]
    · intro hle
      apply hlenIH
      simp only [List.length_append, List.length_cons] at hlen ⊢
      omega
  | case4 data s hge =>
    intro hs d s' hrun
    rw [recvExactGo, if_neg hge] at hrun
    simp only [Prod.mk.injEq, Except.ok.injEq, Option.some.injEq] at hrun
    obtain ⟨hd, hs'⟩ := hrun
    subst hd; subst hs'
    exact ⟨⟨[], by simp, by simp, hs⟩, fun hle => by omega⟩

/-- `_recv_exact` short-read case: returning `None` on a clean stream means
the stream ended with fewer than the `n` requested bytes available. -/
lemma recvExactGo_none (n : Nat) (data : List Nat) (s : Sched) :
    cleanSched s = true → ∀ s', recvExactGo n data s = (.ok none, s') →
      data.length + (schedBytes s).length < n ∧ s' = [] := by
  induction data, s using recvExactGo.induct n with
  | case1 data s hlt m s2 hE =>
    intro hs s' hrun
    obtain ⟨ch, s2', hE', _, _, _, _⟩ :=
      recv_clean_spec (n - data.length) s hs (by omega)
    rw [hE] at hE'
    simp at hE'
  | case2 data s hlt s2 hE =>
    intro hs s' hrun
    rw [recvExactGo, if_pos hlt, hE] at hrun
    have hs' : s2 = s' := by simpa using hrun
    obtain ⟨ch, s2', hE', hbytes, _, hnil, _⟩ :=
      recv_clean_spec (n - data.length) s hs (by omega)
    rw [hE] at hE'
    obtain ⟨hch, hs2⟩ : ([] : List Nat) = ch ∧ s2 = s2' := by
      simpa [Prod.mk.injEq] using hE'
    obtain ⟨hsnil, hs2nil⟩ := hnil hch.symm
    constructor
    · subst hsnil; simp only [schedBytes, List.length_nil]; omega
    · rw [← hs', hs2, hs2nil]
  | case3 data s hlt b bs s2 hE ih =>
    intro hs s' hrun
    rw [recvExactGo, if_pos hlt, hE] at hrun
    obtain ⟨ch, s2', hE', hbytes, hclean, _, _⟩ :=
      recv_clean_spec (n - data.length) s hs (by omega)
    rw [hE] at hE'
    obtain ⟨hch, hs2⟩ : b :: bs = ch ∧ s2 = s2' := by
      simpa [Prod.mk.injEq] using hE'
    subst hs2
    rw [← hch] at hbytes
    obtain ⟨hlt', hnil⟩ := ih hclean s' hrun
    refine ⟨?_, hnil⟩
    rw [hbytes]
    simp only [List.length_append, List.length_cons] at hlt' ⊢
    omega
  | case4 data s hge =>
    intro hs s' hrun
    rw [recvExactGo, if_neg hge] at hrun
    simp at hrun

/-- `_recv_exact` completeness of the short-read signal: when the clean
stream holds fewer than `n` bytes beyond `data`, the loop drains it and
reports the close. -/
lemma recvExactGo_short (n : Nat) (data : List Nat) (s : Sched) :
    cleanSched s = true → data.length + (schedBytes s).length < n →
      recvExactGo n data s = (.ok none, []) := by
  induction data, s using recvExactGo.induct n with
  | case1 data s hlt m s2 hE =>
    intro hs hshort
    obtain ⟨ch, s2', hE', _, _, _, _⟩ :=
      recv_clean_spec (n - data.length) s hs (by omega)
    rw [hE] at hE'
    simp at hE'
  | case2 data s hlt s2 hE =>
    intro hs hshort
    obtain ⟨ch, s2', hE', hbytes, _, hnil, _⟩ :=
      recv_clean_spec (n - data.length) s hs (by omega)
    rw [hE] at hE'
    obtain ⟨hch, hs2⟩ : ([] : List Nat) = ch ∧ s2 = s2' := by
      simpa [Prod.mk.injEq] using hE'
    obtain ⟨hsnil, hs2nil⟩ := hnil hch.symm
    rw [recvExactGo, if_pos hlt, hE, hs2, hs2nil]
  | case3 data s hlt b bs s2 hE ih =>
    intro hs hshort
    obtain ⟨ch, s2', hE', hbytes, hclean, _, _⟩ :=
      recv_clean_spec (n - data.length) s hs (by omega)
    rw [hE] at hE'
    obtain ⟨hch, hs2⟩ : b :: bs = ch ∧ s2 = s2' := by
      simpa [Prod.mk.injEq] using hE'
    subst hs2
    rw [← hch] at hbytes
    rw [recvExactGo, if_pos hlt, hE]
    apply ih hclean
    rw [hbytes] at hshort
    simp only [List.length_append, List.length_cons] at hshort ⊢
    omega
  | case4 data s hge =>
    intro hs hshort
    omega

/-- `_recv_exact n` on a clean stream: exactness corollary at the empty
accumulator, as `query` calls it. -/
lemma recvExact_some (n : Nat) (s : Sched) (hs : cleanSched s = true)
    (d : List Nat) (s' : Sched) (h : recvExact n s = (.ok (some d), s')) :
    d.length = n ∧ schedBytes s = d ++ schedBytes s' ∧ cleanSched s' = true := by
  obtain ⟨⟨extra, hd, hb, hc⟩, hlen⟩ := recvExactGo_some n [] s hs d s' h
  simp only [List.nil_append] at hd
  subst hd
  exact ⟨hlen (by simp), hb, hc⟩

/-- C1: for every requested byte count `n` and clean incoming stream,
`_recv_exact` consumes and returns exactly `n` bytes — no more, no less — or
signals the terminal connection-closed condition exactly when the stream
ends before `n` bytes arrive; `query` reads exactly 4 prefix bytes and then
exactly the declared payload length before decoding, and a short read at
either stage yields the `{'success': False, 'error': 'Connection closed'}`
result with no retry and no partial interpretation. -/
theorem recvExact_query_framing (n : Nat) (s : Sched) (hs : cleanSched s = true) :
    (∀ d s', recvExact n s = (.ok (some d), s') →
        d.length = n ∧ schedBytes s = d ++ schedBytes s') ∧
    (∀ s', recvExact n s = (.ok none, s') → (schedBytes s).length < n ∧ s' = []) ∧
    ((schedBytes s).length < n → recvExact n s = (.ok none, [])) ∧
    (∀ p s', queryAfterConnect .sent s = (.decodedResp p, s') →
        ∃ lenB s1, lenB.length = 4 ∧ recvExact 4 s = (.ok (some lenB), s1) ∧
          unpackLE32 lenB ≤ RESP_LIMIT ∧ p.length = unpackLE32 lenB ∧
          schedBytes s = lenB ++ p ++ schedBytes s') ∧
    ((schedBytes s).length < 4 → (queryAfterConnect .sent s).1 = .connectionClosed) ∧
    (∀ lenB s1, recvExact 4 s = (.ok (some lenB), s1) → unpackLE32 lenB ≤ RESP_LIMIT →
        (schedBytes s1).length < unpackLE32 lenB →
        (queryAfterConnect .sent s).1 = .connectionClosed) ∧
    QueryResult.errDict .connectionClosed = some ⟨false, some "Connection closed"⟩ := by
  refine ⟨?_, ?_, ?_, ?_, ?_, ?_, rfl⟩
  · intro d s' h
    exact ⟨(recvExact_some n s hs d s' h).1, (recvExact_some n s hs d s' h).2.1⟩
  · intro s' h
    have := recvExactGo_none n [] s hs s' h
    simpa using this
  · intro h
    exact recvExactGo_short n [] s hs (by simpa using h)
  · intro p s' h
    rcases h4 : recvExact 4 s with ⟨r1, s1⟩
    rcases r1 with m | o
    · simp only [queryAfterConnect, h4] at h
      cases h
    rcases o with _ | lenB
    · simp only [queryAfterConnect, h4] at h
      cases h
    obtain ⟨hlen4, hbytes1, hclean1⟩ := recvExact_some 4 s hs lenB s1 h4
    simp only [queryAfterConnect, h4] at h
    by_cases hlim : unpackLE32 lenB > RESP_LIMIT
    · rw [if_pos hlim] at h
      cases h
    · rw [if_neg hlim] at h
      rcases h2 : recvExact (unpackLE32 lenB) s1 with ⟨r2, s2⟩
      rcases r2 with m | o2
      · rw [h2] at h; cases h
      rcases o2 with _ | p2
      · rw [h2] at h; cases h
      rw [h2] at h
      obtain ⟨hp2, hs2⟩ : p2 = p ∧ s2 = s' := by
        simpa [Prod.mk.injEq] using h
      obtain ⟨hplen, hbytes2, _⟩ :=
        recvExact_some (unpackLE32 lenB) s1 hclean1 p2 s2 h2
      refine ⟨lenB, s1, hlen4, rfl, by omega, ?_, ?_⟩
      · rw [← hp2]; exact hplen
      · rw [hbytes1, hbytes2, hp2, hs2, List.append_assoc]
  · intro h
    have h4 : recvExact 4 s = (.ok none, []) :=
      recvExactGo_short 4 [] s hs (by simpa using h)
    simp only [queryAfterConnect, h4]
  · intro lenB s1 h4 hlim hshort
    obtain ⟨_, _, hclean1⟩ := recvExact_some 4 s hs lenB s1 h4
    have h2 : recvExact (unpackLE32 lenB) s1 = (.ok none, []) :=
      recvExactGo_short (unpackLE32 lenB) [] s1 hclean1 (by simpa using hshort)
    simp only [queryAfterConnect, h4, if_neg (by omega : ¬ unpackLE32 lenB > RESP_LIMIT), h2]

/-- Witness for C1 at a concrete stream holding only 3 bytes: the short
read at the length-prefix stage yields the connection-closed result. -/
theorem recvExact_query_framing_witness :
    recvExact 4 [Except.ok [1, 2, 3]] = (.ok none, []) ∧
    (queryAfterConnect .sent [Except.ok [1, 2, 3]]).1 = .connectionClosed := by
  have h := recvExact_query_framing 4 [Except.ok [1, 2, 3]] (by decide)
  exact ⟨h.2.2.1 (by decide), h.2.2.2.2.1 (by decide)⟩

/-- C2: when the 4-byte little-endian declared length strictly exceeds
100 MiB, `query` returns the `{'success': False, 'error': 'Response too
large'}` result with the stream state exactly as it was after the 4 prefix
bytes — no payload byte read or buffered; when the declared length does not
exceed the ceiling the guard never triggers. -/
theorem query_size_guard (s : Sched) (lenB : List Nat) (s1 : Sched)
    (h4 : recvExact 4 s = (.ok (some lenB), s1)) :
    (unpackLE32 lenB > RESP_LIMIT →
        queryAfterConnect .sent s = (.responseTooLarge, s1) ∧
        QueryResult.errDict .responseTooLarge = some ⟨false, some "Response too large"⟩) ∧
    (unpackLE32 lenB ≤ RESP_LIMIT → (queryAfterConnect .sent s).1 ≠ .responseTooLarge) := by
  constructor
  · intro hlim
    refine ⟨?_, rfl⟩
    simp only [queryAfterConnect, h4, if_pos hlim]
  · intro hlim
    simp only [queryAfterConnect, h4, if_neg (by omega : ¬ unpackLE32 lenB > RESP_LIMIT)]
    rcases h2 : recvExact (unpackLE32 lenB) s1 with ⟨r2, s2⟩
    rcases r2 with m | o2
    · simp
    rcases o2 with _ | p2 <;> simp

/-- Witness for C2: a declared length of `7 * 2^24 = 117440512 > 104857600`
is rejected right after the prefix, leaving the payload unread. -/
theorem query_size_guard_witness :
    queryAfterConnect .sent [Except.ok [0, 0, 0, 7], Except.ok [1, 2, 3]] =
      (.responseTooLarge, [Except.ok [1, 2, 3]]) := by
  have h4 : recvExact 4 [Except.ok [0, 0, 0, 7], Except.ok [1, 2, 3]] =
      (.ok (some [0, 0, 0, 7]), [Except.ok [1, 2, 3]]) := by
    simp [recvExact, recvExactGo, recv]
  exact ((query_size_guard _ _ _ h4).1 (by norm_num [unpackLE32, RESP_LIMIT])).1

/-- C3: a transport exception raised during the send, or during either
receive stage, is caught inside `query` and converted into the structured
failure dictionary `{'success': False, 'error': str(e)}`; `query` is a
total function into result values, so no transport exception escapes to the
caller. -/
theorem query_catches_transport (m : String) (s : Sched) :
    (query true (.raisedExc m) s = (.transportError m, s)) ∧
    (∀ s1, recvExact 4 s = (.error m, s1) →
        queryAfterConnect .sent s = (.transportError m, s1)) ∧
    (∀ lenB s1 s2, recvExact 4 s = (.ok (some lenB), s1) →
        unpackLE32 lenB ≤ RESP_LIMIT →
        recvExact (unpackLE32 lenB) s1 = (.error m, s2) →
        queryAfterConnect .sent s = (.transportError m, s2)) ∧
    QueryResult.errDict (.transportError m) = some ⟨false, some m⟩ := by
  refine ⟨rfl, ?_, ?_, rfl⟩
  · intro s1 h4
    simp only [queryAfterConnect, h4]
  · intro lenB s1 s2 h4 hlim h2
    simp only [queryAfterConnect, h4,
      if_neg (by omega : ¬ unpackLE32 lenB > RESP_LIMIT), h2]

/-- Witness for C3: the send-raise path at `"timed out"`, and a receive that
raises during the length-prefix read. -/
theorem query_catches_transport_witness :
    query true (.raisedExc "timed out") [] = (.transportError "timed out", []) ∧
    queryAfterConnect .sent [Except.error "Connection reset"] =
      (.transportError "Connection reset", []) := by
  refine ⟨(query_catches_transport "timed out" []).1, ?_⟩
  exact (query_catches_transport "Connection reset" [Except.error "Connection reset"]).2.1 []
    (by simp [recvExact, recvExactGo, recv])

lemma applyOps_sock_spec (ops : List ClientOp) :
    (applyOps clientInit ops).sockLive = lastConnectLive ops := by
  induction ops using List.reverseRecOn with
  | nil => rfl
  | append_singleton xs x ih =>
    rw [applyOps, List.foldl_append] at *
    rw [lastConnectLive, List.reverse_append] at *
    cases x with
    | connectOp ok => simp [applyOp, connectStep, liveAfterRecent]
    | disconnectOp => simp [applyOp, disconnectStep, liveAfterRecent]
    | queryOp =>
      simp only [applyOp, List.reverse_singleton, List.singleton_append,
        liveAfterRecent]
      exact ih

/-- C10: after any call sequence on a fresh client, `self.sock` is live
exactly when the most recent connect succeeded with no disconnect after it;
a failed connect resets the socket to `None`, disconnect always leaves it
`None`, and `query` on a dead socket returns the
`{'success': False, 'error': 'Not connected'}` result without touching the
stream. -/
theorem sock_liveness_invariant (ops : List ClientOp) (c : ClientState)
    (send : SendOutcome) (s : Sched) :
    (applyOps clientInit ops).sockLive = lastConnectLive ops ∧
    connectStep c false = (⟨false⟩, false) ∧
    connectStep c true = (⟨true⟩, true) ∧
    disconnectStep c = ⟨false⟩ ∧
    query false send s = (.notConnected, s) ∧
    QueryResult.errDict .notConnected = some ⟨false, some "Not connected"⟩ :=
  ⟨applyOps_sock_spec ops, rfl, rfl, rfl, rfl, rfl⟩

lemma runCliLocalTests_append (xs ys : List LocalCase) :
    runCliLocalTests (xs ++ ys) = runCliLocalTests xs ++ runCliLocalTests ys := by
  induction xs with
  | nil => rfl
  | cons t rest ih => simp [runCliLocalTests, ih]

lemma runCliLocalTests_length (xs : List LocalCase) :
    (runCliLocalTests xs).length = xs.length := by
  induction xs with
  | nil => rfl
  | cons t rest ih => simp [runCliLocalTests, ih]

/-- Counterexample to C4 as stated: in this run a test case failed (the
recorded local failure count is 1), yet the harness exits 3, not 1 — the
claim's "1 if at least one case failed" and "3 iff the server did not reach
Ready" cannot both hold, so the stated code assignment is not an iff
partition over recorded case outcomes. -/
theorem exit_code_counterexample :
    mainExit envC4 = 3 ∧ countFailed (runCliLocalTests envC4.localCases) = 1 := by
  constructor <;> rfl

/-- C4 (amended): exit 2 iff the build failed; exit 3 iff the build
succeeded and the driver did not reach Ready; when build and readiness
succeed (and nothing raises), exit 0 iff no recorded case failed and exit 1
iff at least one recorded case failed (a remote connect failure is recorded
as a failed case).  These four outcomes are mutually exclusive. -/
theorem harness_exit_code_spec {ρ : Type} (e : HarnessEnv ρ) (hr : e.raiseAt = none)
    (rs : List BasicResult) (remEvs : List Ev)
    (hrem : runBasicTests e.remoteQuery e.remoteCases = (.ok rs, remEvs)) :
    (mainExit e = 2 ↔ e.buildOk = false) ∧
    (mainExit e = 3 ↔ (e.buildOk = true ∧ (e.exeFound = false ∨ e.probeReady = false))) ∧
    (mainExit e = 0 ↔ (e.buildOk = true ∧ e.exeFound = true ∧ e.probeReady = true ∧
        e.remoteConnectOk = true ∧
        countFailed (runCliLocalTests e.localCases) + countFailed (rs.map toCaseResult) = 0)) ∧
    (mainExit e = 1 ↔ (e.buildOk = true ∧ e.exeFound = true ∧ e.probeReady = true ∧
        (e.remoteConnectOk = false ∨
          0 < countFailed (runCliLocalTests e.localCases) + countFailed (rs.map toCaseResult)))) := by
  unfold mainExit harnessRun runBody
  rw [hr]
  simp only [raiseMsg]
  have hcf1 : countFailed [(⟨"remote_connect", false, some "Failed to connect"⟩ : CaseResult)] = 1 := rfl
  cases hb : e.buildOk <;> cases hx : e.exeFound <;> cases hp : e.probeReady <;>
    cases hc : e.remoteConnectOk <;>
      by_cases hsum : countFailed (runCliLocalTests e.localCases) +
        countFailed (rs.map toCaseResult) = 0 <;>
        simp [hrem, hsum, hcf1] <;> omega

/-- Witness for the amended C4 at an all-pass run: exit code 0. -/
theorem harness_exit_code_spec_witness : mainExit envC4W = 0 :=
  (harness_exit_code_spec envC4W rfl [] [] rfl).2.2.1.mpr ⟨rfl, rfl, rfl, rfl, rfl⟩

/-- Counterexample to C5 as stated: in remote mode a raising predicate is
NOT recorded as a failed result — `run_basic_tests` applies the predicate
outside any `try`, so the exception propagates: the result list is lost,
the remaining case never executes, and the whole harness run ends with the
exception (mapped to exit 1 by `main`). -/
theorem remote_predicate_raise_aborts :
    (runBasicTests envC5.remoteQuery envC5.remoteCases).1 = .error "boom" ∧
    (runBasicTests envC5.remoteQuery envC5.remoteCases).2 = [Ev.remoteCaseRun "raises"] ∧
    (harnessRun envC5).1 = .raisedExc "boom" :=
  ⟨rfl, rfl, rfl⟩

/-- C5 (amended): in the two local modes the predicate call sits inside the
per-case `try`, so a raising predicate is recorded as a failed result
carrying the raised error text and every other case still yields its own
result; in remote mode a raising predicate instead propagates and aborts
the remaining cases. -/
theorem local_predicate_raise_recorded (pre post : List LocalCase) (t : LocalCase)
    (out : String) (rc : Int) (m : String)
    (hexec : t.exec = .ran out rc) (hcheck : t.check out rc = .error m) :
    runLocalCase t = ⟨t.name, false, some m⟩ ∧
    runCliLocalTests (pre ++ t :: post) =
      runCliLocalTests pre ++ (⟨t.name, false, some m⟩ : CaseResult) :: runCliLocalTests post ∧
    (runCliLocalTests (pre ++ t :: post)).length = pre.length + 1 + post.length := by
  have h1 : runLocalCase t = ⟨t.name, false, some m⟩ := by
    simp only [runLocalCase, hexec, hcheck]
  refine ⟨h1, ?_, ?_⟩
  · rw [runCliLocalTests_append]
    simp only [runCliLocalTests, h1]
  · rw [runCliLocalTests_length]
    simp [Nat.add_comm, Nat.add_assoc, Nat.add_left_comm]

/-- Witness for the amended C5: the raising local case is recorded failed
with the raised text and the following case still runs and passes. -/
theorem local_predicate_raise_recorded_witness :
    runLocalCase raisingLocalCase = ⟨"raises_local", false, some "KeyError"⟩ ∧
    runCliLocalTests [raisingLocalCase, okLocalCase] =
      [⟨"raises_local", false, some "KeyError"⟩, ⟨"ok_case", true, none⟩] := by
  have h := local_predicate_raise_recorded [] [okLocalCase] raisingLocalCase
    "some output" 0 "KeyError" rfl rfl
  exact ⟨h.1, h.2.1⟩

lemma mem_localEvs {ρ : Type} (e : HarnessEnv ρ) :
    ∀ ev ∈ localEvs e, ∃ nm, ev = Ev.localCaseRun nm := by
  intro ev h
  rcases List.mem_map.mp h with ⟨t, _, ht⟩
  exact ⟨t.name, ht.symm⟩

lemma mem_basicEvs {ρ : Type} (q : String → ρ) (cs : List (RemoteCase ρ)) :
    ∀ ev ∈ (runBasicTests q cs).2, ∃ nm, ev = Ev.remoteCaseRun nm := by
  induction cs with
  | nil => simp [runBasicTests]
  | cons t rest ih =>
    intro ev hev
    simp only [runBasicTests] at hev
    cases hchk : t.passedCheck (q t.sql) with
    | error m =>
      rw [hchk] at hev
      simp at hev
      exact ⟨t.name, hev⟩
    | ok b =>
      rw [hchk] at hev
      simp at hev
      rcases hev with h | h
      · exact ⟨t.name, h⟩
      · exact ih ev h

lemma stopDriverRun_shape (l : Bool) (out : String) :
    ∃ tail, stopDriverRun l out = Ev.stopDriver :: tail ∧
      ∀ ev ∈ tail, ev = Ev.driverTerminated ∨ ev = Ev.printDriverOutput out := by
  cases l with
  | false => exact ⟨[], rfl, by simp⟩
  | true =>
    by_cases hb : outputNonBlank out = true
    · refine ⟨[Ev.driverTerminated, Ev.printDriverOutput out], by simp [stopDriverRun, hb], ?_⟩
      intro ev h
      simpa using h
    · refine ⟨[Ev.driverTerminated], by simp [stopDriverRun, hb], ?_⟩
      intro ev h
      simp at h
      exact Or.inl h

/-- The seven control-flow outcomes of the `run` body and the events each
produces. -/
lemma runBody_shape {ρ : Type} (e : HarnessEnv ρ) :
    ((runBody e).evs = [] ∧ (runBody e).launched = false) ∨
    ((runBody e).evs = [Ev.buildStep false] ∧ (runBody e).launched = false) ∨
    ((runBody e).evs = [Ev.buildStep true] ∧ (runBody e).launched = false) ∨
    ((runBody e).evs = Ev.buildStep true :: localEvs e ∧ (runBody e).launched = false) ∨
    ((runBody e).evs = (Ev.buildStep true :: localEvs e) ++ [Ev.startDriver] ∧
      (runBody e).launched = true) ∨
    ((runBody e).evs = ((Ev.buildStep true :: localEvs e) ++ [Ev.startDriver, Ev.serverReady]) ++
        (runBasicTests e.remoteQuery e.remoteCases).2 ∧ (runBody e).launched = true) ∨
    ((runBody e).evs = (Ev.buildStep true :: localEvs e) ++ [Ev.startDriver, Ev.serverReady] ∧
      (runBody e).launched = true) := by
  simp only [runBody]
  split
  · exact Or.inl ⟨rfl, rfl⟩
  · split
    · exact Or.inr (Or.inl ⟨rfl, rfl⟩)
    · split
      · exact Or.inr (Or.inr (Or.inl ⟨rfl, rfl⟩))
      · split
        · exact Or.inr (Or.inr (Or.inr (Or.inl ⟨rfl, rfl⟩)))
        · split
          · exact Or.inr (Or.inr (Or.inr (Or.inl ⟨rfl, rfl⟩)))
          · split
            · exact Or.inr (Or.inr (Or.inr (Or.inr (Or.inl ⟨rfl, rfl⟩))))
            · split
              · exact Or.inr (Or.inr (Or.inr (Or.inr (Or.inr (Or.inr ⟨rfl, rfl⟩)))))
              · split
                · exact Or.inr (Or.inr (Or.inr (Or.inr (Or.inr (Or.inl ⟨rfl, rfl⟩)))))
                · exact Or.inr (Or.inr (Or.inr (Or.inr (Or.inr (Or.inl ⟨rfl, rfl⟩)))))

lemma stopDriverRun_props (l : Bool) (out : String) :
    ∀ ev ∈ stopDriverRun l out,
      isLocalEv ev = false ∧ isRemoteEv ev = false ∧
      ev ≠ Ev.serverReady ∧ ev ≠ Ev.startDriver := by
  intro ev h
  obtain ⟨tail, hstop, htail⟩ := stopDriverRun_shape l out
  rw [hstop] at h
  simp at h
  rcases h with h | h
  · subst h; exact ⟨rfl, rfl, by simp, by simp⟩
  · rcases htail ev h with h1 | h1 <;> (subst h1; exact ⟨rfl, rfl, by simp, by simp⟩)

lemma basicEvs_props {ρ : Type} (q : String → ρ) (cs : List (RemoteCase ρ)) :
    ∀ ev ∈ (runBasicTests q cs).2,
      isLocalEv ev = false ∧ ev ≠ Ev.serverReady ∧ ev ≠ Ev.startDriver := by
  intro ev h
  obtain ⟨nm, hnm⟩ := mem_basicEvs q cs ev h
  subst hnm
  exact ⟨rfl, by simp, by simp⟩

lemma buildLocal_props {ρ : Type} (e : HarnessEnv ρ) (bk : Bool) :
    ∀ ev ∈ Ev.buildStep bk :: localEvs e,
      isRemoteEv ev = false ∧ ev ≠ Ev.startDriver ∧ ev ≠ Ev.serverReady := by
  intro ev h
  rcases List.mem_cons.mp h with h | h
  · subst h; exact ⟨rfl, by simp, by simp⟩
  · obtain ⟨nm, hnm⟩ := mem_localEvs e ev h
    subst hnm; exact ⟨rfl, by simp, by simp⟩

lemma order_part1 {ρ : Type} (e : HarnessEnv ρ) :
    ∃ A B, (harnessRun e).2 = A ++ B ∧
      (∀ ev ∈ A, isRemoteEv ev = false ∧ ev ≠ Ev.startDriver ∧ ev ≠ Ev.serverReady) ∧
      (∀ ev ∈ B, isLocalEv ev = false) := by
  have htr : (harnessRun e).2 =
      (runBody e).evs ++ stopDriverRun (runBody e).launched e.driverOutput := rfl
  set stop := stopDriverRun (runBody e).launched e.driverOutput with hstopdef
  have hstopNoLocal : ∀ ev ∈ stop, isLocalEv ev = false :=
    fun ev h => (stopDriverRun_props _ _ ev h).1
  rcases runBody_shape e with ⟨h, _⟩ | ⟨h, _⟩ | ⟨h, _⟩ | ⟨h, _⟩ | ⟨h, _⟩ | ⟨h, _⟩ | ⟨h, _⟩
  · exact ⟨[], stop, by rw [htr, h], by simp, hstopNoLocal⟩
  · refine ⟨[Ev.buildStep false], stop, by rw [htr, h], ?_, hstopNoLocal⟩
    intro ev hm
    simp at hm
    subst hm; exact ⟨rfl, by simp, by simp⟩
  · refine ⟨[Ev.buildStep true], stop, by rw [htr, h], ?_, hstopNoLocal⟩
    intro ev hm
    simp at hm
    subst hm; exact ⟨rfl, by simp, by simp⟩
  · exact ⟨Ev.buildStep true :: localEvs e, stop, by rw [htr, h], buildLocal_props e true,
      hstopNoLocal⟩
  · refine ⟨Ev.buildStep true :: localEvs e, [Ev.startDriver] ++ stop,
      by rw [htr, h, List.append_assoc], buildLocal_props e true, ?_⟩
    intro ev hm
    rcases List.mem_append.mp hm with hm | hm
    · simp at hm; subst hm; rfl
    · exact hstopNoLocal ev hm
  · refine ⟨Ev.buildStep true :: localEvs e,
      [Ev.startDriver, Ev.serverReady] ++ ((runBasicTests e.remoteQuery e.remoteCases).2 ++ stop),
      by rw [htr, h]; simp [List.append_assoc], buildLocal_props e true, ?_⟩
    intro ev hm
    rcases List.mem_append.mp hm with hm | hm
    · simp at hm; rcases hm with hm | hm <;> (subst hm; rfl)
    · rcases List.mem_append.mp hm with hm | hm
      · exact (basicEvs_props _ _ ev hm).1
      · exact hstopNoLocal ev hm
  · refine ⟨Ev.buildStep true :: localEvs e, [Ev.startDriver, Ev.serverReady] ++ stop,
      by rw [htr, h, List.append_assoc], buildLocal_props e true, ?_⟩
    intro ev hm
    rcases List.mem_append.mp hm with hm | hm
    · simp at hm; rcases hm with hm | hm <;> (subst hm; rfl)
    · exact hstopNoLocal ev hm

lemma order_part2 {ρ : Type} (e : HarnessEnv ρ) :
    (Ev.serverReady ∈ (harnessRun e).2 →
      ∃ P Q, (harnessRun e).2 = P ++ Ev.serverReady :: Q ∧
        ∀ ev ∈ P, isRemoteEv ev = false) ∧
    (Ev.serverReady ∉ (harnessRun e).2 →
      ∀ ev ∈ (harnessRun e).2, isRemoteEv ev = false) := by
  have htr : (harnessRun e).2 =
      (runBody e).evs ++ stopDriverRun (runBody e).launched e.driverOutput := rfl
  set stop := stopDriverRun (runBody e).launched e.driverOutput with hstopdef
  have hstopProps : ∀ ev ∈ stop, isRemoteEv ev = false ∧ ev ≠ Ev.serverReady :=
    fun ev h => ⟨(stopDriverRun_props _ _ ev h).2.1, (stopDriverRun_props _ _ ev h).2.2.1⟩
  have hBL : ∀ bk, ∀ ev ∈ Ev.buildStep bk :: localEvs e,
      isRemoteEv ev = false ∧ ev ≠ Ev.serverReady :=
    fun bk ev h => ⟨(buildLocal_props e bk ev h).1, (buildLocal_props e bk ev h).2.2⟩
  rcases runBody_shape e with ⟨h, _⟩ | ⟨h, _⟩ | ⟨h, _⟩ | ⟨h, _⟩ | ⟨h, _⟩ | ⟨h, _⟩ | ⟨h, _⟩
  · have hall : ∀ ev ∈ (harnessRun e).2, isRemoteEv ev = false ∧ ev ≠ Ev.serverReady := by
      rw [htr, h]; simpa using hstopProps
    exact ⟨fun hmem => absurd rfl ((hall _ hmem).2), fun _ ev hm => (hall ev hm).1⟩
  · have hall : ∀ ev ∈ (harnessRun e).2, isRemoteEv ev = false ∧ ev ≠ Ev.serverReady := by
      rw [htr, h]
      intro ev hm
      rcases List.mem_append.mp hm with hm | hm
      · simp at hm; subst hm; exact ⟨rfl, by simp⟩
      · exact hstopProps ev hm
    exact ⟨fun hmem => absurd rfl ((hall _ hmem).2), fun _ ev hm => (hall ev hm).1⟩
  · have hall : ∀ ev ∈ (harnessRun e).2, isRemoteEv ev = false ∧ ev ≠ Ev.serverReady := by
      rw [htr, h]
      intro ev hm
      rcases List.mem_append.mp hm with hm | hm
      · simp at hm; subst hm; exact ⟨rfl, by simp⟩
      · exact hstopProps ev hm
    exact ⟨fun hmem => absurd rfl ((hall _ hmem).2), fun _ ev hm => (hall ev hm).1⟩
  · have hall : ∀ ev ∈ (harnessRun e).2, isRemoteEv ev = false ∧ ev ≠ Ev.serverReady := by
      rw [htr, h]
      intro ev hm
      rcases List.mem_append.mp hm with hm | hm
      · exact hBL true ev hm
      · exact hstopProps ev hm
    exact ⟨fun hmem => absurd rfl ((hall _ hmem).2), fun _ ev hm => (hall ev hm).1⟩
  · have hall : ∀ ev ∈ (harnessRun e).2, isRemoteEv ev = false ∧ ev ≠ Ev.serverReady := by
      rw [htr, h]
      intro ev hm
      rcases List.mem_append.mp hm with hm | hm
      · rcases List.mem_append.mp hm with hm | hm
        · exact hBL true ev hm
        · simp at hm; subst hm; exact ⟨rfl, by simp⟩
      · exact hstopProps ev hm
    exact ⟨fun hmem => absurd rfl ((hall _ hmem).2), fun _ ev hm => (hall ev hm).1⟩
  · constructor
    · intro _
      refine ⟨(Ev.buildStep true :: localEvs e) ++ [Ev.startDriver],
        (runBasicTests e.remoteQuery e.remoteCases).2 ++ stop,
        by rw [htr, h]; simp, ?_⟩
      intro ev hm
      rcases List.mem_append.mp hm with hm | hm
      · exact (buildLocal_props e true ev hm).1
      · simp at hm; subst hm; rfl
    · intro hnot
      exact absurd (by rw [htr, h]; simp : Ev.serverReady ∈ (harnessRun e).2) hnot
  · constructor
    · intro _
      refine ⟨(Ev.buildStep true :: localEvs e) ++ [Ev.startDriver], stop,
        by rw [htr, h]; simp, ?_⟩
      intro ev hm
      rcases List.mem_append.mp hm with hm | hm
      · exact (buildLocal_props e true ev hm).1
      · simp at hm; subst hm; rfl
    · intro hnot
      exact absurd (by rw [htr, h]; simp : Ev.serverReady ∈ (harnessRun e).2) hnot

lemma order_part3 {ρ : Type} (e : HarnessEnv ρ) :
    ∃ P Q, (harnessRun e).2 = P ++ Ev.stopDriver :: Q ∧
      ∀ ev ∈ Q, isRemoteEv ev = false ∧ isLocalEv ev = false := by
  have htr : (harnessRun e).2 =
      (runBody e).evs ++ stopDriverRun (runBody e).launched e.driverOutput := rfl
  obtain ⟨tail, hstop, htail⟩ :=
    stopDriverRun_shape (runBody e).launched e.driverOutput
  refine ⟨(runBody e).evs, tail, by rw [htr, hstop], ?_⟩
  intro ev hm
  rcases htail ev hm with h1 | h1 <;> (subst h1; exact ⟨rfl, rfl⟩)

/-- C6: in every harness run all local-mode case events lie in a prefix
that contains no remote-mode case event and precedes the driver start and
readiness; remote-mode case events occur only after the `serverReady` event
(and not at all if readiness is never reached) and only before the
teardown's `stopDriver` event. -/
theorem harness_run_order {ρ : Type} (e : HarnessEnv ρ) :
    (∃ A B, (harnessRun e).2 = A ++ B ∧
      (∀ ev ∈ A, isRemoteEv ev = false ∧ ev ≠ Ev.startDriver ∧ ev ≠ Ev.serverReady) ∧
      (∀ ev ∈ B, isLocalEv ev = false)) ∧
    ((Ev.serverReady ∈ (harnessRun e).2 →
      ∃ P Q, (harnessRun e).2 = P ++ Ev.serverReady :: Q ∧
        ∀ ev ∈ P, isRemoteEv ev = false) ∧
     (Ev.serverReady ∉ (harnessRun e).2 →
      ∀ ev ∈ (harnessRun e).2, isRemoteEv ev = false)) ∧
    (∃ P Q, (harnessRun e).2 = P ++ Ev.stopDriver :: Q ∧
      ∀ ev ∈ Q, isRemoteEv ev = false ∧ isLocalEv ev = false) :=
  ⟨order_part1 e, order_part2 e, order_part3 e⟩

/-- Witness for C6: instantiating the order theorem on a full run whose
trace contains the ready event, and discharging its inner hypothesis. -/
theorem harness_run_order_witness :
    ∃ P Q, (harnessRun envOrderW).2 = P ++ Ev.serverReady :: Q ∧
      ∀ ev ∈ P, isRemoteEv ev = false :=
  (harness_run_order envOrderW).2.1.1 (by decide)

/-- C7: on every exit route of `TestHarness.run` — build-failure return,
readiness-failure return, normal completion, or an exception raised at any
modelled point of the test sequence — the `finally` clause executes
`stop_driver`, and whenever a driver process was launched it is terminated
there, so no launched server outlives the run; the stop events are the
final events of the trace. -/
theorem stop_driver_every_route {ρ : Type} (e : HarnessEnv ρ) :
    Ev.stopDriver ∈ (harnessRun e).2 ∧
    ((runBody e).launched = true → Ev.driverTerminated ∈ (harnessRun e).2) ∧
    (∃ A, (harnessRun e).2 = A ++ stopDriverRun (runBody e).launched e.driverOutput) := by
  have htr : (harnessRun e).2 =
      (runBody e).evs ++ stopDriverRun (runBody e).launched e.driverOutput := rfl
  obtain ⟨tail, hstop, _⟩ :=
    stopDriverRun_shape (runBody e).launched e.driverOutput
  refine ⟨?_, ?_, ⟨(runBody e).evs, htr⟩⟩
  · rw [htr, hstop]
    exact List.mem_append_right _ (List.mem_cons_self _ _)
  · intro hl
    rw [htr]
    apply List.mem_append_right
    by_cases hb : outputNonBlank e.driverOutput = true <;>
      simp [stopDriverRun, hl, hb]

/-- Witness for C7: on the readiness-failure route the launched driver is
still terminated. -/
theorem stop_driver_every_route_witness :
    Ev.driverTerminated ∈ (harnessRun envC7W).2 :=
  (stop_driver_every_route envC7W).2.1 rfl

/-- Counterexample to C8 as stated: this run passes everything (exit code
0), yet the non-blank buffered driver output is printed at teardown — the
code prints whenever `output.strip()` is truthy, regardless of success, so
the output is not discarded on a fully successful run. -/
theorem driver_output_printed_on_success :
    (harnessRun envC8).1 = .exitCode 0 ∧
    Ev.printDriverOutput "server log" ∈ (harnessRun envC8).2 := by
  constructor
  · rfl
  · decide

lemma runBody_no_print {ρ : Type} (e : HarnessEnv ρ) (o : String) :
    Ev.printDriverOutput o ∉ (runBody e).evs := by
  intro hmem
  rcases runBody_shape e with ⟨h, _⟩ | ⟨h, _⟩ | ⟨h, _⟩ | ⟨h, _⟩ | ⟨h, _⟩ | ⟨h, _⟩ | ⟨h, _⟩ <;>
    rw [h] at hmem
  · simp at hmem
  · simp at hmem
  · simp at hmem
  · rcases List.mem_cons.mp hmem with hm | hm
    · simp at hm
    · obtain ⟨nm, hnm⟩ := mem_localEvs e _ hm; simp at hnm
  · rcases List.mem_append.mp hmem with hm | hm
    · rcases List.mem_cons.mp hm with hm | hm
      · simp at hm
      · obtain ⟨nm, hnm⟩ := mem_localEvs e _ hm; simp at hnm
    · simp at hm
  · rcases List.mem_append.mp hmem with hm | hm
    · rcases List.mem_append.mp hm with hm | hm
      · rcases List.mem_cons.mp hm with hm | hm
        · simp at hm
        · obtain ⟨nm, hnm⟩ := mem_localEvs e _ hm; simp at hnm
      · simp at hm
    · obtain ⟨nm, hnm⟩ := mem_basicEvs _ _ _ hm; simp at hnm
  · rcases List.mem_append.mp hmem with hm | hm
    · rcases List.mem_cons.mp hm with hm | hm
      · simp at hm
      · obtain ⟨nm, hnm⟩ := mem_localEvs e _ hm; simp at hnm
    · simp at hm

/-- C8 (amended): the buffered driver output is surfaced at teardown
exactly when a driver process was launched and the remaining buffered
output is non-blank — independently of whether the cases passed or
failed. -/
theorem driver_output_surfaced_iff {ρ : Type} (e : HarnessEnv ρ) (o : String) :
    Ev.printDriverOutput o ∈ (harnessRun e).2 ↔
      ((runBody e).launched = true ∧ outputNonBlank e.driverOutput = true ∧
        o = e.driverOutput) := by
  have htr : (harnessRun e).2 =
      (runBody e).evs ++ stopDriverRun (runBody e).launched e.driverOutput := rfl
  rw [htr]
  rw [List.mem_append]
  constructor
  · intro h
    rcases h with h | h
    · exact absurd h (runBody_no_print e o)
    · cases hl : (runBody e).launched <;> rw [hl] at h
      · simp [stopDriverRun] at h
      · by_cases hb : outputNonBlank e.driverOutput = true <;>
          simp [stopDriverRun, hb] at h
        exact ⟨rfl, hb, h⟩
  · intro ⟨hl, hb, ho⟩
    right
    subst ho
    simp [stopDriverRun, hl, hb]

/-- C9: if the supervised process exits unprompted at probe iteration `k`
(all earlier iterations seeing it alive and not yet accepting), the probe
reports the failure in that very iteration — executing `k + 1` iterations
rather than waiting out the rest of the deadline window — and surfaces the
captured combined output as the diagnostic. -/
theorem probe_reports_death_immediately (out : String) (obs : List ProbeObs)
    (k : Nat) (o : ProbeObs) (hk : obs.get? k = some o) (ho : o.exited = true)
    (hb : ∀ p ∈ obs.take k, p.exited = false ∧ p.connectOk = false) :
    startProbe out obs = (.failedDead out, k + 1) ∧ k + 1 ≤ obs.length := by
  induction obs generalizing k with
  | nil => simp at hk
  | cons hd rest ih =>
    cases k with
    | zero =>
      simp at hk
      subst hk
      refine ⟨?_, by simp⟩
      simp [startProbe, ho]
    | succ k' =>
      have hhd : hd.exited = false ∧ hd.connectOk = false := by
        apply hb
        simp
      have hrest := ih k' (by simpa using hk) (fun p hp => hb p (by simp [hp]))
      constructor
      · simp [startProbe, hhd.1, hhd.2, hrest.1]
      · simpa using Nat.succ_le_succ hrest.2

/-- Witness for C9: death observed at the second iteration stops the probe
after two iterations of a five-iteration window and surfaces the output. -/
theorem probe_reports_death_immediately_witness :
    startProbe "traceback" [⟨false, false⟩, ⟨true, false⟩, ⟨false, false⟩,
      ⟨false, false⟩, ⟨false, false⟩] = (.failedDead "traceback", 2) ∧
    2 ≤ 5 := by
  have h := probe_reports_death_immediately "traceback"
    [⟨false, false⟩, ⟨true, false⟩, ⟨false, false⟩, ⟨false, false⟩, ⟨false, false⟩]
    1 ⟨true, false⟩ (by decide) (by decide) (by decide)
  exact ⟨h.1, by omega⟩

/-- Witness for the amended C8: a launched driver with non-blank remaining
output has that output surfaced at teardown. -/
theorem driver_output_surfaced_iff_witness :
    Ev.printDriverOutput "server boot noise" ∈ (harnessRun envC8W).2 :=
  (driver_output_surfaced_iff envC8W "server boot noise").mpr ⟨rfl, by decide, rfl⟩
